import Mathlib

/-!
Verification of the kb-query core pipeline (pattern matching, SPARQL building,
query orchestration) against its specification.

The development shallowly embeds the Python modules `kb_query/core/entities.py`,
`kb_query/core/matcher.py`, `kb_query/core/builder.py` and
`kb_query/services/query.py`.  Strings are modelled as `List Char` (`String` at
the interfaces); Python `float` scores are modelled as exact rationals `ℚ`;
functions that raise exceptions are modelled with `Except`/`Option`.  Regular
expressions in the source are small and fixed, so each one is embedded as the
concrete scanning function it denotes (with Python's leftmost / greedy /
non-greedy rules spelled out); `difflib.SequenceMatcher` is ported directly.
All definitions are executable, so concrete runs can be decided by the kernel.
-/

/- `Rat.add`/`mul`/`inv`/`sub` are shipped `@[irreducible]`; restore the
default transparency locally so that concrete similarity scores and SPARQL
builds can be settled by `decide`. -/
attribute [local semireducible] Rat.add Rat.mul Rat.inv Rat.sub

/-! ## Basic character and list-of-char utilities -/

/-- Characters matched by Python's `\s` (ASCII range, as in the inputs here). -/
def isSpaceChar (c : Char) : Bool :=
  c = ' ' || c = '\t' || c = '\n' || c = '\r' || c = '\x0b' || c = '\x0c'

/-- Characters matched by Python's `\w` (ASCII range). -/
def isWordChar (c : Char) : Bool :=
  c.isAlphanum || c = '_'

/-- ASCII digit, Python `\d`. -/
def isDigitChar (c : Char) : Bool := c.isDigit

abbrev LC := List Char

/-- Lower-case a char sequence (`str.lower()` on the ASCII inputs used here). -/
def lowerL (l : LC) : LC := l.map Char.toLower

/-- Upper-case a char sequence (`str.upper()`). -/
def upperL (l : LC) : LC := l.map Char.toUpper

/-- Python `str.strip()`: drop whitespace from both ends. -/
def stripL (l : LC) : LC :=
  ((l.dropWhile isSpaceChar).reverse.dropWhile isSpaceChar).reverse

/-- Python `str.rstrip()`. -/
def rstripL (l : LC) : LC := (l.reverse.dropWhile isSpaceChar).reverse

/-- `stripL` on `String`s. -/
def stripS (s : String) : String := (stripL s.data).asString

/-- Case-insensitive literal prefix test: the `re.IGNORECASE` matching of a
literal against the head of the text. -/
def ciStarts (pat l : LC) : Bool :=
  (lowerL pat).isPrefixOf (lowerL l)

/-- Substring test, Python `pat in s` (for non-empty `pat`). -/
def containsSub (pat : LC) : LC → Bool
  | [] => false
  | c :: rest => pat.isPrefixOf (c :: rest) || containsSub pat rest

/-- Count occurrences of one character (Python `str.count` with a 1-char
argument). -/
def countChar (c : Char) (l : LC) : Nat := l.countP (fun d => d = c)

/-- Fuel-driven worker for `replaceSub`.  (Fuel only bounds the recursion
depth so that the definition is structural and kernel-reducible; every step
consumes at least one character, so `l.length + 1` is always enough.) -/
def replaceSubF (pat rep : LC) : Nat → LC → LC
  | 0, l => l
  | fuel + 1, l =>
    match l with
    | [] => []
    | c :: rest =>
      if pat ≠ [] ∧ pat.isPrefixOf (c :: rest) then
        rep ++ replaceSubF pat rep fuel (rest.drop (pat.length - 1))
      else c :: replaceSubF pat rep fuel rest

/-- Python `str.replace(pat, rep)`: replace all non-overlapping occurrences,
left to right (`pat` non-empty in every use below). -/
def replaceSub (pat rep l : LC) : LC := replaceSubF pat rep (l.length + 1) l

/-- Python `str.split(sep)` for a one-character separator: keeps empty pieces. -/
def splitOnChar (sep : Char) : LC → List LC
  | [] => [[]]
  | c :: rest =>
    if c = sep then [] :: splitOnChar sep rest
    else
      match splitOnChar sep rest with
      | [] => [[c]]
      | w :: ws => (c :: w) :: ws

/-- Helper for `wsSplit`: accumulates the current word reversed. -/
def wsSplitGo : LC → LC → List LC
  | acc, [] => if acc = [] then [] else [acc.reverse]
  | acc, c :: rest =>
    if isSpaceChar c then
      if acc = [] then wsSplitGo [] rest else acc.reverse :: wsSplitGo [] rest
    else wsSplitGo (c :: acc) rest

/-- Python `str.split()` with no argument: split on whitespace runs, no empty
pieces. -/
def wsSplit (l : LC) : List LC := wsSplitGo [] l

/-- Keep the first occurrence of each element, dropping later duplicates;
`seen` holds elements already emitted.  This is the `seen`-set loop used in
`matcher.suggest_corrections` and `services/query.py`. -/
def dedupSeen [DecidableEq α] : List α → List α → List α
  | [], _ => []
  | x :: rest, seen =>
    if x ∈ seen then dedupSeen rest seen
    else x :: dedupSeen rest (x :: seen)

/-- First-seen-order deduplication. -/
def dedupFirstSeen [DecidableEq α] (l : List α) : List α := dedupSeen l []

/-! ## Template parsing

The matcher's regexes `{[^}]+}` (in `re.split`, `re.findall`, and the
placeholder substitution of `_template_to_regex`) all scan the template for
`\x7b`, at least one non-`\x7d` character, then `\x7d`, non-overlapping and
leftmost-first.  `findPH` performs one such scan step. -/

/-- One scan step: split `l` as `pre ++ '\x7b' :: name ++ '\x7d' :: post` at the
leftmost placeholder (`name` non-empty, free of closing braces), if any. -/
def findPH : LC → Option (LC × LC × LC)
  | [] => none
  | c :: rest =>
    if c = '{' then
      let nm := rest.takeWhile (fun d => d ≠ '}')
      match rest.dropWhile (fun d => d ≠ '}'), nm with
      | _ :: after, _ :: _ => some ([], nm, after)
      | _, _ =>
        match findPH rest with
        | some (pre, n, post) => some (c :: pre, n, post)
        | none => none
    else
      match findPH rest with
      | some (pre, n, post) => some (c :: pre, n, post)
      | none => none

theorem findPH_post_length : ∀ (l pre nm post : LC),
    findPH l = some (pre, nm, post) → post.length < l.length := by
  intro l
  induction l with
  | nil => intro pre nm post h; simp [findPH] at h
  | cons c rest ih =>
    intro pre nm post h
    rw [findPH] at h
    by_cases hc : c = '{'
    · rw [if_pos hc] at h
      revert h
      cases hdw : rest.dropWhile (fun d => d ≠ '}') with
      | nil =>
        cases htw : rest.takeWhile (fun d => d ≠ '}') <;>
          · intro h
            cases hf : findPH rest with
            | none => rw [hf] at h; exact absurd h (by simp)
            | some trip =>
              obtain ⟨p1, n1, q1⟩ := trip
              rw [hf] at h
              obtain ⟨-, -, h3⟩ : c :: p1 = pre ∧ n1 = nm ∧ q1 = post := by
                simpa using h
              exact Nat.lt_succ_of_lt (h3 ▸ ih p1 n1 q1 hf)
      | cons d after =>
        cases htw : rest.takeWhile (fun d => d ≠ '}') with
        | nil =>
          intro h
          cases hf : findPH rest with
          | none => rw [hf] at h; exact absurd h (by simp)
          | some trip =>
            obtain ⟨p1, n1, q1⟩ := trip
            rw [hf] at h
            obtain ⟨-, -, h3⟩ : c :: p1 = pre ∧ n1 = nm ∧ q1 = post := by
              simpa using h
            exact Nat.lt_succ_of_lt (h3 ▸ ih p1 n1 q1 hf)
        | cons e nm' =>
          intro h
          obtain ⟨-, -, h3⟩ : ([] : LC) = pre ∧ e :: nm' = nm ∧ after = post := by
            simpa using h
          have h1 : (rest.dropWhile (fun d => d ≠ '}')).length ≤ rest.length :=
            (List.dropWhile_sublist _).length_le
          rw [hdw] at h1
          rw [← h3]
          simp only [List.length_cons] at h1 ⊢
          omega
    · rw [if_neg hc] at h
      revert h
      cases hf : findPH rest with
      | none => intro h; exact absurd h (by simp)
      | some trip =>
        obtain ⟨p1, n1, q1⟩ := trip
        intro h
        obtain ⟨-, -, h3⟩ : c :: p1 = pre ∧ n1 = nm ∧ q1 = post := by
          simpa using h
        exact Nat.lt_succ_of_lt (h3 ▸ ih p1 n1 q1 hf)

/-- A template part: literal text or a `\x7b name \x7d` placeholder. -/
inductive TPart where
  | lit (s : LC)
  | ph (name : LC)
deriving DecidableEq

/-- Fuel-driven worker for `parseTemplate`: by `findPH_post_length` each scan
step strictly shrinks the remaining text, so `s.length + 1` fuel always
suffices and the fallback branch is unreachable. -/
def parseTemplateF : Nat → LC → List TPart
  | 0, s => if s = [] then [] else [TPart.lit s]
  | fuel + 1, s =>
    match findPH s with
    | none => if s = [] then [] else [TPart.lit s]
    | some (pre, nm, post) =>
      (if pre = [] then [] else [TPart.lit pre]) ++ TPart.ph nm :: parseTemplateF fuel post

/-- Parse a template into alternating literal / placeholder parts (the common
scan behind `re.split` / `re.findall` on the placeholder regex and the
substitution in `_template_to_regex`).  Empty literal pieces are omitted; all
downstream code skips them anyway. -/
def parseTemplate (s : LC) : List TPart := parseTemplateF (s.length + 1) s

/-- Placeholder names in template order — `re.findall(r'\x7b([^\x7d]+)\x7d', template)`. -/
def phNames (t : LC) : List LC :=
  (parseTemplate t).filterMap fun p =>
    match p with
    | TPart.ph n => some n
    | TPart.lit _ => none

/-- Concatenation of the literal parts — `re.sub(r'\x7b[^\x7d]+\x7d', '', t)`. -/
def litConcat (t : LC) : LC :=
  (parseTemplate t).foldr
    (fun p acc =>
      match p with
      | TPart.lit s => s ++ acc
      | TPart.ph _ => acc) []

/-! ## Core entities (`kb_query/core/entities.py`)

`Pattern.__post_init__` recomputes `keywords` and then validates; `Grammar`,
`MatchResult`, `QueryRequest`, `QueryResponse`, `SPARQLQuery` are plain
dataclasses with `validate` hooks.  Exception-raising construction is modelled
by `Except String` (the `ValidationError` message). -/

structure Pattern where
  id : String
  template : String
  sparql_template : String
  entity_types : List (String × String)
  examples : List String
  confidence : ℚ
  domain_class : String
  property : String
  keywords : List String
deriving DecidableEq

structure Grammar where
  patterns : List Pattern
  ontology_hash : String
  namespaces : List (String × String)
  created_at : String
deriving DecidableEq

structure MatchResult where
  pattern : Pattern
  confidence : ℚ
  entities : List (String × String)
  match_type : String
deriving DecidableEq

structure SPARQLQuery where
  query_text : String
  vars : List String
  estimated_complexity : Int
  optimization_applied : Bool
deriving DecidableEq

/-- `Pattern._has_entity_placeholders`: `re.search(r'\x7b[^\x7d]+\x7d', template)`. -/
def hasEntityPlaceholders (template : String) : Bool :=
  (findPH template.data).isSome

/-- Stop-word table in `Pattern._extract_keywords`. -/
def stopWords : List String :=
  ["the", "and", "or", "but", "in", "on", "at", "to", "for", "of", "with", "by", "a", "an"]

/-- `Pattern._extract_keywords`: drop placeholders, split to words, lower-case,
keep words longer than 2 that are not stop words. -/
def extractKeywords (template : String) : List String :=
  let words := (wsSplit (litConcat template.data)).map (fun w => stripL (lowerL w))
  ((words.filter (fun w => w ≠ [])).filter
      (fun w => w.length > 2 ∧ ¬ (w.asString ∈ stopWords))).map List.asString

/-- `Pattern.__post_init__` + `Pattern.validate`: derive keywords, then check
each constraint in source order, raising `ValidationError` on the first
failure. -/
def mkPattern (id template sparql_template : String)
    (entity_types : List (String × String)) (examples : List String)
    (confidence : ℚ) (domain_class property : String) : Except String Pattern :=
  let keywords := extractKeywords template
  if id = "" then .error "Pattern ID cannot be empty"
  else if ¬ hasEntityPlaceholders template then
    .error "Pattern has no entity placeholders"
  else if ¬ (0 ≤ confidence ∧ confidence ≤ 1) then
    .error "Pattern confidence must be between 0.0 and 1.0"
  else if examples = [] then
    .error "Pattern must have at least one example"
  else if stripS sparql_template = "" then
    .error "Pattern must have SPARQL template"
  else .ok ⟨id, template, sparql_template, entity_types, examples, confidence,
            domain_class, property, keywords⟩

/-- `Grammar.__post_init__` + `Grammar.validate`.  The duplicate-id check
`len(pattern_ids) != len(set(pattern_ids))` holds exactly when the id list is
not `Nodup`. -/
def mkGrammar (patterns : List Pattern) (ontology_hash : String)
    (namespaces : List (String × String)) (created_at : String) :
    Except String Grammar :=
  if patterns = [] then .error "Grammar must contain at least one pattern"
  else if ontology_hash = "" then .error "Grammar must have ontology hash"
  else if ¬ (patterns.map Pattern.id).Nodup then
    .error "Grammar contains duplicate pattern IDs"
  else .ok ⟨patterns, ontology_hash, namespaces, created_at⟩

/-- `Except` success test (`isOk`). -/
def isOkE : Except ε α → Bool
  | .ok _ => true
  | .error _ => false

@[simp] theorem isOkE_ok (a : α) : isOkE (Except.ok (ε := ε) a) = true := rfl

@[simp] theorem isOkE_error (e : ε) : isOkE (Except.error (α := α) e) = false := rfl

/-- Success characterization of `mkPattern`: construction succeeds exactly when
the id is non-empty, the template has a placeholder, the confidence is in
`[0,1]`, the examples are non-empty and the SPARQL template is non-blank. -/
theorem mkPattern_isOk_iff (id template sparql_template : String)
    (ets : List (String × String)) (examples : List String) (confidence : ℚ)
    (dc pr : String) :
    isOkE (mkPattern id template sparql_template ets examples confidence dc pr) = true ↔
      (id ≠ "" ∧ hasEntityPlaceholders template = true ∧ 0 ≤ confidence ∧
       confidence ≤ 1 ∧ examples ≠ [] ∧ stripS sparql_template ≠ "") := by
  simp only [mkPattern]
  split_ifs with h1 h2 h3 h4 h5 <;> simp_all

/-- Test-suite pattern `test_001` (from `tests/unit/test_pattern_matcher.py`),
with `keywords` as recomputed by `Pattern.__post_init__`. -/
def patternMeetingsWith : Pattern :=
  { id := "test_001"
    template := "meetings with \x7bperson\x7d"
    sparql_template := "SELECT ?meeting WHERE \x7b ?meeting kb:hasAttendee ?person \x7d"
    entity_types := [("person", "foaf:Person")]
    examples := ["meetings with John Smith"]
    confidence := 19/20
    domain_class := "kb:Meeting"
    property := "kb:hasAttendee"
    keywords := extractKeywords "meetings with \x7bperson\x7d" }

/-- Test-suite pattern `test_002`, the possessive template. -/
def patternPossessive : Pattern :=
  { id := "test_002"
    template := "\x7bperson\x7d's meetings"
    sparql_template := "SELECT ?meeting WHERE \x7b ?meeting kb:hasAttendee ?person \x7d"
    entity_types := [("person", "foaf:Person")]
    examples := ["John's meetings"]
    confidence := 9/10
    domain_class := "kb:Meeting"
    property := "kb:hasAttendee"
    keywords := extractKeywords "\x7bperson\x7d's meetings" }

/-- The sample grammar of the matcher test-suite (restricted to the two
patterns the claims exercise). -/
def grammarFix : Grammar :=
  { patterns := [patternMeetingsWith, patternPossessive]
    ontology_hash := "test_hash"
    namespaces := [("kb", "http://example.org/kb#")]
    created_at := "2025-08-06T12:00:00" }

/-- C4 counterexample: a `Pattern` whose template has a placeholder, whose
confidence is `1/2 ∈ [0,1]`, whose examples are non-empty and whose SPARQL
template is non-blank — so it satisfies every constraint listed by the claim —
still fails construction, because its `id` is empty (`Pattern.validate` checks
the id first). -/
theorem c4_counterexample :
    hasEntityPlaceholders "\x7bx\x7d" = true ∧
    (0 : ℚ) ≤ 1/2 ∧ (1/2 : ℚ) ≤ 1 ∧
    (["example query"] : List String) ≠ [] ∧
    stripS "SELECT ?s WHERE \x7b ?s ?p ?o \x7d" ≠ "" ∧
    isOkE (mkPattern "" "\x7bx\x7d" "SELECT ?s WHERE \x7b ?s ?p ?o \x7d" []
      ["example query"] (1/2) "kb:C" "kb:p") = false := by
  refine ⟨by decide, by norm_num, by norm_num, by decide, by decide, by decide⟩

/-- C4 (amended): constructing a Pattern whose id is empty, or whose template
contains no placeholder, or whose confidence lies outside `[0,1]`, or whose
examples list is empty, or whose SPARQL template is blank, always fails with a
`ValidationError`; a Pattern satisfying all five of these constraints
constructs successfully. -/
theorem c4_pattern_validation (id template sparql_template : String)
    (ets : List (String × String)) (examples : List String) (confidence : ℚ)
    (dc pr : String) :
    ((id = "" ∨ hasEntityPlaceholders template = false ∨ confidence < 0 ∨
        1 < confidence ∨ examples = [] ∨ stripS sparql_template = "") →
      isOkE (mkPattern id template sparql_template ets examples confidence dc pr) = false) ∧
    (id ≠ "" → hasEntityPlaceholders template = true → 0 ≤ confidence →
      confidence ≤ 1 → examples ≠ [] → stripS sparql_template ≠ "" →
      isOkE (mkPattern id template sparql_template ets examples confidence dc pr) = true) := by
  constructor
  · intro h
    rw [Bool.eq_false_iff]
    intro hok
    obtain ⟨h1, h2, h3, h4, h5, h6⟩ :=
      (mkPattern_isOk_iff id template sparql_template ets examples confidence dc pr).mp hok
    rcases h with h | h | h | h | h | h
    · exact h1 h
    · simp [h2] at h
    · exact absurd h3 (not_le.mpr h)
    · exact absurd h4 (not_le.mpr h)
    · exact h5 h
    · exact h6 h
  · intro h1 h2 h3 h4 h5 h6
    exact (mkPattern_isOk_iff id template sparql_template ets examples confidence dc pr).mpr
      ⟨h1, h2, h3, h4, h5, h6⟩

/-- C4 witness: the success direction at the test-suite pattern. -/
theorem c4_witness :
    isOkE (mkPattern "test_001" "meetings with \x7bperson\x7d"
      "SELECT ?meeting WHERE \x7b ?meeting kb:hasAttendee ?person \x7d"
      [("person", "foaf:Person")] ["meetings with John Smith"] (19/20)
      "kb:Meeting" "kb:hasAttendee") = true :=
  (c4_pattern_validation "test_001" "meetings with \x7bperson\x7d"
      "SELECT ?meeting WHERE \x7b ?meeting kb:hasAttendee ?person \x7d"
      [("person", "foaf:Person")] ["meetings with John Smith"] (19/20)
      "kb:Meeting" "kb:hasAttendee").2
    (by decide) (by decide) (by norm_num) (by norm_num) (by decide) (by decide)

/-- C5: constructing a Grammar with an empty pattern list, an empty ontology
hash, or duplicate pattern ids raises a `ValidationError`; every successfully
constructed Grammar has a non-empty pattern list, a non-empty hash, and
pairwise distinct pattern ids. -/
theorem c5_grammar_validation (patterns : List Pattern) (ontology_hash : String)
    (namespaces : List (String × String)) (created_at : String) :
    (patterns = [] →
      isOkE (mkGrammar patterns ontology_hash namespaces created_at) = false) ∧
    (ontology_hash = "" →
      isOkE (mkGrammar patterns ontology_hash namespaces created_at) = false) ∧
    (¬ (patterns.map Pattern.id).Nodup →
      isOkE (mkGrammar patterns ontology_hash namespaces created_at) = false) ∧
    (∀ g, mkGrammar patterns ontology_hash namespaces created_at = .ok g →
      g.patterns ≠ [] ∧ g.ontology_hash ≠ "" ∧ (g.patterns.map Pattern.id).Nodup) := by
  refine ⟨?_, ?_, ?_, ?_⟩
  · intro h
    simp only [mkGrammar]
    split_ifs <;> simp_all
  · intro h
    simp only [mkGrammar]
    split_ifs <;> simp_all
  · intro h
    simp only [mkGrammar]
    split_ifs <;> simp_all
  · intro g hg
    simp only [mkGrammar] at hg
    split_ifs at hg with h1 h2 h3
    obtain rfl : (⟨patterns, ontology_hash, namespaces, created_at⟩ : Grammar) = g := by
      simpa using hg
    exact ⟨h1, h2, not_not.mp (by simpa using h3)⟩

/-- C5 witness: the invariants hold for the concrete test-suite grammar. -/
theorem c5_witness :
    grammarFix.patterns ≠ [] ∧ grammarFix.ontology_hash ≠ "" ∧
    (grammarFix.patterns.map Pattern.id).Nodup :=
  (c5_grammar_validation [patternMeetingsWith, patternPossessive] "test_hash"
      [("kb", "http://example.org/kb#")] "2025-08-06T12:00:00").2.2.2
    grammarFix (by rfl)

/-! ## `difflib.SequenceMatcher` (stdlib dependency of the matcher)

The matcher scores similarity with `SequenceMatcher(None, a, b).ratio()`.
With the short inputs used here no junk/autojunk is ever active, so `ratio`
is `2*M/(len a + len b)` where `M` sums the sizes of the recursively chosen
longest matching blocks.  `findLongestMatch` ports `find_longest_match`'s
dynamic program including its tie-breaking (strictly longer blocks win;
otherwise the earliest end in `a`, then the earliest start in `b`). -/

/-- Lookup in the `j2len` row map (missing keys give 0, like `dict.get`). -/
def alookup : List (Nat × Nat) → Nat → Nat
  | [], _ => 0
  | (j, k) :: rest, j0 => if j = j0 then k else alookup rest j0

/-- State of the `find_longest_match` loop. -/
structure FLMState where
  besti : Nat
  bestj : Nat
  bestsize : Nat

/-- One row of the dynamic program: element `x = a[i]`, previous row `j2len`. -/
def flmRow [DecidableEq α] (b : List α) (x : α) (i : Nat)
    (j2len : List (Nat × Nat)) (st : FLMState) : List (Nat × Nat) × FLMState :=
  ((List.range b.length).filter (fun j => decide (b.get? j = some x))).foldl
    (fun acc j =>
      let k := (if j = 0 then 0 else alookup j2len (j - 1)) + 1
      let st' := if k > acc.2.bestsize then
          { besti := i + 1 - k, bestj := j + 1 - k, bestsize := k }
        else acc.2
      ((j, k) :: acc.1, st'))
    ([], st)

/-- Fold of `flmRow` over `a` (index `i` runs over `a`'s positions). -/
def flmGo [DecidableEq α] (b : List α) : List α → Nat → List (Nat × Nat) →
    FLMState → FLMState
  | [], _, _, st => st
  | x :: rest, i, j2len, st =>
    let p := flmRow b x i j2len st
    flmGo b rest (i + 1) p.1 p.2

/-- `SequenceMatcher.find_longest_match` over whole sequences (no junk):
returns `(i, j, size)`. -/
def findLongestMatch [DecidableEq α] (a b : List α) : Nat × Nat × Nat :=
  let st := flmGo b a 0 [] ⟨0, 0, 0⟩
  (st.besti, st.bestj, st.bestsize)

/-- Total size of all matching blocks (`get_matching_blocks` recursion).  The
fuel argument only bounds the recursion depth; `a.length + b.length` is always
sufficient because each recursive call strictly shrinks the combined length. -/
def matchTotalF [DecidableEq α] : Nat → List α → List α → Nat
  | 0, _, _ => 0
  | fuel + 1, a, b =>
    let t := findLongestMatch a b
    if t.2.2 = 0 then 0
    else t.2.2 + matchTotalF fuel (a.take t.1) (b.take t.2.1) +
         matchTotalF fuel (a.drop (t.1 + t.2.2)) (b.drop (t.2.1 + t.2.2))

/-- `SequenceMatcher(None, a, b).ratio()` as an exact rational. -/
def ratioQ [DecidableEq α] (a b : List α) : ℚ :=
  if a.length + b.length = 0 then 1
  else (2 * (matchTotalF (a.length + b.length) a b : ℚ)) / (a.length + b.length)

/-! ## Tokenization (`PatternMatcher._tokenize`, `_tokenize_template`) -/

/-- Fuel-driven worker for `tokenizeCore` (each step consumes at least one
character, so `l.length + 1` fuel always suffices). -/
def tokenizeCoreF : Nat → LC → List LC
  | 0, _ => []
  | fuel + 1, l =>
    match l with
    | [] => []
    | c :: rest =>
      if isWordChar c then
        match rest.dropWhile isWordChar with
        | '\'' :: d :: r2 =>
          if isWordChar d then
            ((c :: rest).takeWhile isWordChar ++ '\'' :: (d :: r2).takeWhile isWordChar)
              :: tokenizeCoreF fuel (r2.dropWhile isWordChar)
          else ((c :: rest).takeWhile isWordChar) :: tokenizeCoreF fuel ('\'' :: d :: r2)
        | r1 => ((c :: rest).takeWhile isWordChar) :: tokenizeCoreF fuel r1
      else tokenizeCoreF fuel rest

/-- The scan of `re.findall(r"\w+(?:'\w+)?", text)`: maximal word-character
runs, each optionally extended by an apostrophe plus a further word run. -/
def tokenizeCore (l : LC) : List LC := tokenizeCoreF (l.length + 1) l

/-- `PatternMatcher._tokenize`: lower-case, then scan word tokens. -/
def tokenize (s : String) : List String :=
  (tokenizeCore (lowerL s.data)).map List.asString

/-- A template token (`_tokenize_template`): a literal word (lower-cased) or a
placeholder kept as an opaque token. -/
inductive TTok where
  | word (w : String)
  | ph (name : String)
deriving DecidableEq

/-- `PatternMatcher._tokenize_template`: split at placeholders, keep them as
opaque tokens, and tokenize the literal pieces with `_tokenize`. -/
def tokenizeTemplate (template : String) : List TTok :=
  (parseTemplate template.data).flatMap fun p =>
    match p with
    | TPart.ph n => [TTok.ph n.asString]
    | TPart.lit s => (tokenizeCore (lowerL s)).map (fun w => TTok.word w.asString)

/-- The literal words of a template-token list (`t['type'] == 'word'`). -/
def wordToks (pattern_tokens : List TTok) : List String :=
  pattern_tokens.filterMap fun t =>
    match t with
    | TTok.word w => some w
    | TTok.ph _ => none

/-- `PatternMatcher._calculate_token_similarity`:
`0.4 * seq_similarity + 0.6 * avg_word_similarity` (0 when the template has no
literal words). -/
def calculateTokenSimilarity (input_tokens : List String)
    (pattern_tokens : List TTok) : ℚ :=
  let pattern_words := wordToks pattern_tokens
  if pattern_words = [] then 0
  else
    let seq_similarity := ratioQ (input_tokens.take pattern_words.length) pattern_words
    let word_similarities := (List.range pattern_words.length).map fun i =>
      if i < input_tokens.length then
        ratioQ (input_tokens.getD i "").data (pattern_words.getD i "").data
      else 0
    let avg := word_similarities.sum / word_similarities.length
    2/5 * seq_similarity + 3/5 * avg

/-! ## Template regex matching (`_template_to_regex` + `re.match`)

`_template_to_regex` escapes the template, turns each placeholder into a
non-greedy group `(.+?)`, and anchors with `^...$`, matched with
`re.IGNORECASE`.  (The subsequent `regex.replace("\\'s", "'?s?")` is dead
code on the supported Python versions: since Python 3.7 `re.escape` leaves
apostrophes unescaped, so the escaped template never contains `\'s`; the
templates used contain no backslashes, so no other interaction arises.)

The compiled regex always has the restricted shape
`^ lit (.+?) lit (.+?) ... $`, whose Python backtracking semantics is: consume
each literal case-insensitively, and give each group the shortest non-empty
capture that lets the rest match; `$` also tolerates one final newline. -/

/-- Try `f 0, f 1, ...` (`fuel` attempts) and return the first `some`. -/
def firstSomeAux (f : Nat → Option β) : Nat → Nat → Option β
  | _, 0 => none
  | i, fuel + 1 =>
    match f i with
    | some y => some y
    | none => firstSomeAux f (i + 1) fuel

/-- Anchored match of template parts against input: returns the list of group
captures (leftmost/shortest for the non-greedy groups), or `none`. -/
def matchParts : List TPart → LC → Option (List LC)
  | [], s => if s = [] ∨ s = ['\n'] then some [] else none
  | TPart.lit l :: ps, s =>
    if ciStarts l s then matchParts ps (s.drop l.length) else none
  | TPart.ph _ :: ps, s =>
    firstSomeAux
      (fun n => (matchParts ps (s.drop (n + 1))).map (fun caps => s.take (n + 1) :: caps))
      0 s.length

/-- Unanchored variant used by `_extract_entities_positional`: the regex there
has no `^`/`$`, so a match may stop before the end of the text. -/
def matchPartsPre : List TPart → LC → Option (List LC)
  | [], _ => some []
  | TPart.lit l :: ps, s =>
    if ciStarts l s then matchPartsPre ps (s.drop l.length) else none
  | TPart.ph _ :: ps, s =>
    firstSomeAux
      (fun n => (matchPartsPre ps (s.drop (n + 1))).map (fun caps => s.take (n + 1) :: caps))
      0 s.length

/-- `re.search` of the positional regex: try each start position left to
right. -/
def searchParts (ps : List TPart) : LC → Option (List LC)
  | [] => matchPartsPre ps []
  | c :: rest =>
    match matchPartsPre ps (c :: rest) with
    | some caps => some caps
    | none => searchParts ps rest

/-- Python-dict insertion: update an existing key in place, else append. -/
def dinsert : List (String × String) → String → String → List (String × String)
  | [], k, v => [(k, v)]
  | (k0, v0) :: rest, k, v =>
    if k0 = k then (k0, v) :: rest else (k0, v0) :: dinsert rest k v

/-- `_extract_entities_from_match`: zip placeholder names with the stripped
captured groups, in template order, into an (insertion-ordered) dict. -/
def entitiesFromCaps (template : String) (caps : List LC) : List (String × String) :=
  (((phNames template.data).map List.asString).zip
      (caps.map (fun c => (stripL c).asString))).foldl
    (fun m p => dinsert m p.1 p.2) []

/-! ## The matcher (`kb_query/core/matcher.py`) -/

/-- `PatternMatcher._try_exact_match`. -/
def tryExactMatch (input_text : String) (p : Pattern) : Option MatchResult :=
  match matchParts (parseTemplate p.template.data) input_text.data with
  | some caps => some ⟨p, 1, entitiesFromCaps p.template caps, "exact"⟩
  | none => none

/-- `PatternMatcher._extract_entities_positional`. -/
def extractEntitiesPositional (input_text : String) (p : Pattern) :
    List (String × String) :=
  if phNames p.template.data = [] then []
  else
    match searchParts (parseTemplate p.template.data) input_text.data with
    | some caps => entitiesFromCaps p.template caps
    | none => []

/-- The inner best-word search of `_extract_entities_fuzzy_flexible`: Python
iterates pattern words in the outer loop and input tokens in the inner loop,
keeping the input index `j` of the strictly best pairwise ratio above 0.6. -/
def bestInputIdx (pattern_words input_tokens : List String) : Option Nat :=
  (pattern_words.foldl
    (fun acc pw =>
      input_tokens.enum.foldl
        (fun acc2 je =>
          let sim := ratioQ je.2.data pw.data
          if sim > acc2.1 ∧ sim > 3/5 then (sim, some je.1) else acc2)
        acc)
    ((0 : ℚ), none)).2

/-- `_reconstruct_entity_from_tokens`: locate the first token in the lowered
original text, slice from there, and take as many whitespace words as there
are tokens. -/
def reconstructEntity (original_text : String) (tokens : List String) : String :=
  match tokens with
  | [] => ""
  | ft :: _ =>
    match (List.range original_text.data.length).find?
        (fun i => (lowerL ft.data).isPrefixOf ((lowerL original_text.data).drop i)) with
    | some pos =>
      let words := wsSplit (original_text.data.drop pos)
      if words.length ≥ tokens.length then
        String.intercalate " " ((words.take tokens.length).map List.asString)
      else String.intercalate " " tokens
    | none => String.intercalate " " tokens

/-- `_extract_entities_fuzzy_flexible`. -/
def extractEntitiesFlexible (input_text : String) (p : Pattern) :
    List (String × String) :=
  let input_tokens := tokenize input_text
  let pattern_tokens := tokenizeTemplate p.template
  let placeholders := pattern_tokens.filterMap fun t =>
    match t with
    | TTok.ph n => some n
    | TTok.word _ => none
  if placeholders = [] then []
  else
    let pattern_words := wordToks pattern_tokens
    if placeholders.length = 1 ∧ pattern_words.length ≥ 1 then
      match bestInputIdx pattern_words input_tokens with
      | some j =>
        if j + 1 < input_tokens.length then
          let entity_tokens := input_tokens.drop (j + 1)
          if entity_tokens ≠ [] then
            [(placeholders.head!, reconstructEntity input_text entity_tokens)]
          else []
        else []
      | none => []
    else []

/-- `_extract_entities_fuzzy`: positional extraction, then the flexible
fallback when it produced nothing. -/
def extractEntitiesFuzzy (input_text : String) (p : Pattern) :
    List (String × String) :=
  let entities := extractEntitiesPositional input_text p
  if entities = [] then extractEntitiesFlexible input_text p else entities

/-- `PatternMatcher._try_fuzzy_match`. -/
def tryFuzzyMatch (threshold : ℚ) (input_text : String) (p : Pattern) :
    Option MatchResult :=
  let similarity := calculateTokenSimilarity (tokenize input_text)
    (tokenizeTemplate p.template)
  if similarity ≥ threshold then
    some ⟨p, similarity, extractEntitiesFuzzy input_text p, "fuzzy"⟩
  else none

/-- `PatternMatcher._match_pattern`: exact first, else fuzzy. -/
def matchPattern (threshold : ℚ) (input_text : String) (p : Pattern) :
    Option MatchResult :=
  match tryExactMatch input_text p with
  | some r => some r
  | none => tryFuzzyMatch threshold input_text p

/-- Stable descending insertion by confidence: `r` goes after every earlier
element whose confidence is `≥ r.confidence`, exactly where Python's stable
`list.sort(key=confidence, reverse=True)` leaves it. -/
def insDesc (r : MatchResult) : List MatchResult → List MatchResult
  | [] => [r]
  | x :: xs =>
    if r.confidence > x.confidence then r :: x :: xs else x :: insDesc r xs

/-- Stable sort by descending confidence. -/
def sortDesc (l : List MatchResult) : List MatchResult :=
  l.foldl (fun acc r => insDesc r acc) []

/-- `PatternMatcher.find_matches`: score every pattern, keep the results at or
above the threshold, sort by descending confidence. -/
def findMatches (threshold : ℚ) (input_text : String) (g : Grammar) :
    List MatchResult :=
  sortDesc (g.patterns.filterMap fun p =>
    (matchPattern threshold input_text p).bind fun r =>
      if r.confidence ≥ threshold then some r else none)

/-- `_calculate_keyword_similarity`: fraction of keywords present among the
input tokens. -/
def keywordSimilarity (input_tokens : List String) (keywords : List String) : ℚ :=
  if keywords = [] then 0
  else ((keywords.filter (fun k => k ∈ input_tokens)).length : ℚ) / keywords.length

/-- `PatternMatcher.suggest_corrections`: collect examples of patterns with
keyword overlap above 0.3 (first two examples) or any literal word overlap
(first example), deduplicate in first-seen order, cap at 5. -/
def suggestCorrections (input_text : String) (g : Grammar) : List String :=
  let input_tokens := tokenize (lowerL input_text.data).asString
  let suggestions := g.patterns.foldl
    (fun acc p =>
      let acc2 := if p.keywords ≠ [] ∧
          keywordSimilarity input_tokens p.keywords > 3/10 then
          acc ++ p.examples.take 2
        else acc
      let pattern_words := tokenize (lowerL p.template.data).asString
      if input_tokens.any (fun t => t ∈ pattern_words) then
        acc2 ++ p.examples.take 1
      else acc2)
    []
  (dedupFirstSeen suggestions).take 5

/-! ## Supporting lemmas about the matcher -/

theorem insDesc_mem (a r : MatchResult) :
    ∀ l, a ∈ insDesc r l ↔ a = r ∨ a ∈ l := by
  intro l
  induction l with
  | nil => simp [insDesc]
  | cons x xs ih =>
    rw [insDesc]
    split_ifs with h
    · simp
    · simp only [List.mem_cons, ih]
      tauto

theorem sortDesc_foldl_mem (a : MatchResult) :
    ∀ (l acc : List MatchResult),
      a ∈ l.foldl (fun acc r => insDesc r acc) acc ↔ a ∈ acc ∨ a ∈ l := by
  intro l
  induction l with
  | nil => simp
  | cons x xs ih =>
    intro acc
    rw [List.foldl_cons, ih, insDesc_mem]
    simp only [List.mem_cons]
    tauto

theorem sortDesc_mem (a : MatchResult) (l : List MatchResult) :
    a ∈ sortDesc l ↔ a ∈ l := by
  rw [sortDesc, sortDesc_foldl_mem]
  simp

theorem insDesc_pairwise (r : MatchResult) :
    ∀ l, l.Pairwise (fun x y => y.confidence ≤ x.confidence) →
      (insDesc r l).Pairwise (fun x y => y.confidence ≤ x.confidence) := by
  intro l
  induction l with
  | nil => simp [insDesc]
  | cons x xs ih =>
    intro hp
    rw [List.pairwise_cons] at hp
    rw [insDesc]
    split_ifs with h
    · rw [List.pairwise_cons]
      refine ⟨?_, List.pairwise_cons.mpr hp⟩
      intro y hy
      rcases List.mem_cons.mp hy with rfl | hy
      · exact le_of_lt h
      · exact le_trans (hp.1 y hy) (le_of_lt h)
    · rw [List.pairwise_cons]
      refine ⟨?_, ih hp.2⟩
      intro y hy
      rcases (insDesc_mem y r xs).mp hy with rfl | hy
      · exact not_lt.mp h
      · exact hp.1 y hy

theorem sortDesc_pairwise (l : List MatchResult) :
    (sortDesc l).Pairwise (fun x y => y.confidence ≤ x.confidence) := by
  rw [sortDesc]
  have : ∀ (l acc : List MatchResult),
      acc.Pairwise (fun x y => y.confidence ≤ x.confidence) →
      (l.foldl (fun acc r => insDesc r acc) acc).Pairwise
        (fun x y => y.confidence ≤ x.confidence) := by
    intro l
    induction l with
    | nil => intro acc h; simpa using h
    | cons x xs ih => intro acc h; exact ih _ (insDesc_pairwise x acc h)
  exact this l [] (by simp)

theorem firstSomeAux_some {f : Nat → Option β} :
    ∀ (fuel i : Nat) (y : β), firstSomeAux f i fuel = some y → ∃ n, f n = some y := by
  intro fuel
  induction fuel with
  | zero => intro i y h; simp [firstSomeAux] at h
  | succ fuel ih =>
    intro i y h
    rw [firstSomeAux] at h
    revert h
    cases hf : f i with
    | some z =>
      intro h
      have hz : z = y := by simpa using h
      exact ⟨i, by rw [hf, hz]⟩
    | none => intro h; exact ih (i + 1) y h

theorem within_of_suffix {l₁ l₂ : List α} (h : l₁ <:+ l₂) : l₁ <:+: l₂ := by
  obtain ⟨s, hs⟩ := h
  exact ⟨s, [], by simp [hs]⟩

theorem within_of_pre {l₁ l₂ : List α} (h : l₁ <+: l₂) : l₁ <:+: l₂ := by
  obtain ⟨t, ht⟩ := h
  exact ⟨[], t, by simp [ht]⟩

theorem matchParts_caps_infix :
    ∀ (ps : List TPart) (s : LC) (caps : List LC),
      matchParts ps s = some caps → ∀ c ∈ caps, c <:+: s := by
  intro ps
  induction ps with
  | nil =>
    intro s caps h c hc
    rw [matchParts] at h
    by_cases hs : s = [] ∨ s = ['\n']
    · rw [if_pos hs] at h
      obtain rfl : ([] : List LC) = caps := by simpa using h
      simp at hc
    · rw [if_neg hs] at h
      simp at h
  | cons p ps ih =>
    intro s caps h c hc
    cases p with
    | lit l =>
      rw [matchParts] at h
      by_cases hcs : ciStarts l s = true
      · rw [if_pos hcs] at h
        exact (ih _ caps h c hc).trans (within_of_suffix (List.drop_suffix _ _))
      · rw [if_neg hcs] at h
        simp at h
    | ph nm =>
      rw [matchParts] at h
      obtain ⟨n, hn⟩ := firstSomeAux_some _ _ _ h
      revert hn
      cases hm : matchParts ps (s.drop (n + 1)) with
      | none => intro hn; simp at hn
      | some caps' =>
        intro hn
        obtain rfl : s.take (n + 1) :: caps' = caps := by simpa using hn
        rcases List.mem_cons.mp hc with rfl | hc
        · exact within_of_pre (List.take_prefix _ _)
        · exact (ih _ caps' hm c hc).trans (within_of_suffix (List.drop_suffix _ _))

/-- Keys ("first components") of an entity dict. -/
def dkeys (m : List (String × String)) : List String := m.map Prod.fst

theorem dinsert_of_not_mem (k v : String) :
    ∀ m, k ∉ dkeys m → dinsert m k v = m ++ [(k, v)] := by
  intro m
  induction m with
  | nil => intro _; rfl
  | cons p rest ih =>
    intro hk
    rw [dkeys, List.map_cons, List.mem_cons] at hk
    push_neg at hk
    rw [dinsert, if_neg (by exact fun h => hk.1 h.symm)]
    rw [List.cons_append]
    congr 1
    exact ih hk.2

theorem foldl_dinsert_eq :
    ∀ (pairs acc : List (String × String)),
      (dkeys acc ++ dkeys pairs).Nodup →
      pairs.foldl (fun m p => dinsert m p.1 p.2) acc = acc ++ pairs := by
  intro pairs
  induction pairs with
  | nil => intro acc _; simp
  | cons p rest ih =>
    intro acc hnd
    rw [List.foldl_cons]
    have hk : p.1 ∉ dkeys acc := by
      intro hmem
      have : p.1 ∈ dkeys (p :: rest) := by simp [dkeys]
      exact (List.disjoint_of_nodup_append hnd) hmem this
    rw [dinsert_of_not_mem p.1 p.2 acc hk]
    have hnd' : (dkeys (acc ++ [(p.1, p.2)]) ++ dkeys rest).Nodup := by
      have h1 : dkeys (acc ++ [(p.1, p.2)]) ++ dkeys rest =
          dkeys acc ++ (p.1 :: dkeys rest) := by
        simp [dkeys]
      rw [h1]
      have h2 : dkeys acc ++ dkeys (p :: rest) = dkeys acc ++ (p.1 :: dkeys rest) := by
        simp [dkeys]
      rw [← h2]
      exact hnd
    rw [ih (acc ++ [(p.1, p.2)]) hnd']
    simp

theorem map_fst_zip_front : ∀ (a : List α) (b : List β),
    ((a.zip b).map Prod.fst) <+: a := by
  intro a
  induction a with
  | nil => intro b; simp
  | cons x xs ih =>
    intro b
    cases b with
    | nil => simp
    | cons y ys =>
      rw [List.zip_cons_cons, List.map_cons]
      obtain ⟨t, ht⟩ := ih ys
      exact ⟨t, by rw [List.cons_append, ht]⟩

theorem entitiesFromCaps_of_nodup (template : String) (caps : List LC)
    (h : ((phNames template.data).map List.asString).Nodup) :
    entitiesFromCaps template caps =
      ((phNames template.data).map List.asString).zip
        (caps.map (fun c => (stripL c).asString)) := by
  rw [entitiesFromCaps]
  have hzk : (dkeys ([] : List (String × String)) ++
      dkeys (((phNames template.data).map List.asString).zip
        (caps.map (fun c => (stripL c).asString)))).Nodup := by
    rw [dkeys, dkeys]
    simp only [List.map_nil, List.nil_append]
    exact ((map_fst_zip_front _ _).sublist).nodup h
  rw [foldl_dinsert_eq _ [] hzk]
  simp

/-- Bridge between the index loop of `_calculate_token_similarity` (iterate
over pattern-word positions, scoring 0 past the end of the input) and the
truncating-zip formulation of the same sum. -/
theorem range_pad_sum (f : String → String → ℚ) :
    ∀ (pws its : List String),
      (((List.range pws.length).map fun i =>
        if i < its.length then f (its.getD i "") (pws.getD i "") else 0).sum)
      = ((its.zip pws).map fun q => f q.1 q.2).sum := by
  intro pws
  induction pws with
  | nil => intro its; simp
  | cons w pws ih =>
    intro its
    cases its with
    | nil => simp
    | cons t its =>
      simp only [List.length_cons]
      rw [List.range_succ_eq_map, List.map_cons, List.sum_cons,
        List.map_map, List.zip_cons_cons, List.map_cons, List.sum_cons]
      congr 1
      · simp
      · rw [← ih its]
        congr 1
        refine List.map_congr_left ?_
        intro i hi
        simp [Nat.succ_lt_succ_iff]

/-- The spec's blended fuzzy score, stated the way the claim states it: 0.4
times the whole-sequence similarity ratio of the input token sequence
truncated to the number of literal words against the literal words, plus 0.6
times the mean of the per-position pairwise word ratios, where positions
beyond the input's length score 0 (the zip truncates the sum; the mean still
divides by the number of literal words). -/
def blendedSimilaritySpec (input_tokens pattern_words : List String) : ℚ :=
  2/5 * ratioQ (input_tokens.take pattern_words.length) pattern_words +
  3/5 * (((input_tokens.zip pattern_words).map fun q => ratioQ q.1.data q.2.data).sum /
         pattern_words.length)

/-- C6: for every input text and every pattern with at least one literal
template word, the fuzzy similarity equals the blended score of the spec
(0.4 whole-sequence + 0.6 positional mean with missing positions scoring 0);
`_try_fuzzy_match` produces a result exactly when this score reaches the
threshold, and then its confidence is the blended score and its match type is
"fuzzy". -/
theorem c6_fuzzy_scoring (θ : ℚ) (input_text : String) (p : Pattern)
    (hw : wordToks (tokenizeTemplate p.template) ≠ []) :
    calculateTokenSimilarity (tokenize input_text) (tokenizeTemplate p.template) =
      blendedSimilaritySpec (tokenize input_text) (wordToks (tokenizeTemplate p.template)) ∧
    ((∃ r, tryFuzzyMatch θ input_text p = some r) ↔
      θ ≤ calculateTokenSimilarity (tokenize input_text) (tokenizeTemplate p.template)) ∧
    (∀ r, tryFuzzyMatch θ input_text p = some r →
      r.pattern = p ∧
      r.confidence =
        calculateTokenSimilarity (tokenize input_text) (tokenizeTemplate p.template) ∧
      r.match_type = "fuzzy") := by
  refine ⟨?_, ?_, ?_⟩
  · simp only [calculateTokenSimilarity, blendedSimilaritySpec]
    rw [if_neg hw]
    rw [range_pad_sum (fun a b => ratioQ a.data b.data)]
    simp
  · constructor
    · rintro ⟨r, hr⟩
      simp only [tryFuzzyMatch] at hr
      by_cases h : calculateTokenSimilarity (tokenize input_text)
          (tokenizeTemplate p.template) ≥ θ
      · exact h
      · rw [if_neg h] at hr
        simp at hr
    · intro h
      refine ⟨⟨p,
        calculateTokenSimilarity (tokenize input_text) (tokenizeTemplate p.template),
        extractEntitiesFuzzy input_text p, "fuzzy"⟩, ?_⟩
      simp only [tryFuzzyMatch]
      rw [if_pos h]
  · intro r hr
    simp only [tryFuzzyMatch] at hr
    by_cases h : calculateTokenSimilarity (tokenize input_text)
        (tokenizeTemplate p.template) ≥ θ
    · rw [if_pos h] at hr
      obtain rfl :
          (⟨p,
            calculateTokenSimilarity (tokenize input_text) (tokenizeTemplate p.template),
            extractEntitiesFuzzy input_text p, "fuzzy"⟩ : MatchResult) = r := by
        simpa using hr
      exact ⟨rfl, rfl, rfl⟩
    · rw [if_neg h] at hr
      simp at hr

/-- C6 witness: the test-suite typo input against the test-suite pattern. -/
theorem c6_witness :
    (calculateTokenSimilarity (tokenize "meetigns with John Smith")
        (tokenizeTemplate patternMeetingsWith.template) =
      blendedSimilaritySpec (tokenize "meetigns with John Smith")
        (wordToks (tokenizeTemplate patternMeetingsWith.template))) ∧
    (∃ r, tryFuzzyMatch (7/10) "meetigns with John Smith" patternMeetingsWith = some r) := by
  have h := c6_fuzzy_scoring (7/10) "meetigns with John Smith" patternMeetingsWith (by decide)
  exact ⟨h.1, h.2.1.mpr (by decide)⟩

/-- C1: `find_matches` keeps only results at or above the threshold, sorts
them in descending confidence order, keeps the (threshold-passing) result of
every pattern — no early termination across patterns — and whenever the
compiled template regex fully matches the input case-insensitively, the
pattern's result has confidence 1.0, match type "exact", and entities given by
the placeholder names in template order zipped with the stripped captured
groups, which are verbatim (casing-preserving) fragments of the input. -/
theorem c1_find_matches (θ : ℚ) (input_text : String) (g : Grammar) :
    (∀ r ∈ findMatches θ input_text g, θ ≤ r.confidence) ∧
    (findMatches θ input_text g).Pairwise (fun x y => y.confidence ≤ x.confidence) ∧
    (∀ p ∈ g.patterns, ∀ r, matchPattern θ input_text p = some r →
      θ ≤ r.confidence → r ∈ findMatches θ input_text g) ∧
    (∀ p ∈ g.patterns, ∀ caps,
      matchParts (parseTemplate p.template.data) input_text.data = some caps →
      θ ≤ 1 →
      (⟨p, 1, entitiesFromCaps p.template caps, "exact"⟩ : MatchResult) ∈
          findMatches θ input_text g ∧
      (((phNames p.template.data).map List.asString).Nodup →
        entitiesFromCaps p.template caps =
          ((phNames p.template.data).map List.asString).zip
            (caps.map fun c => (stripL c).asString)) ∧
      (∀ c ∈ caps, c <:+: input_text.data)) := by
  have hmem : ∀ r, r ∈ findMatches θ input_text g ↔
      ∃ p ∈ g.patterns, matchPattern θ input_text p = some r ∧ θ ≤ r.confidence := by
    intro r
    rw [findMatches, sortDesc_mem, List.mem_filterMap]
    constructor
    · rintro ⟨p, hp, hf⟩
      refine ⟨p, hp, ?_⟩
      revert hf
      cases hm : matchPattern θ input_text p with
      | none => intro hf; simp at hf
      | some r' =>
        intro hf
        rw [Option.some_bind] at hf
        by_cases hc : r'.confidence ≥ θ
        · rw [if_pos hc] at hf
          obtain rfl : r' = r := by simpa using hf
          exact ⟨rfl, hc⟩
        · rw [if_neg hc] at hf
          simp at hf
    · rintro ⟨p, hp, hm, hc⟩
      refine ⟨p, hp, ?_⟩
      rw [hm, Option.some_bind]
      rw [if_pos hc]
  refine ⟨?_, ?_, ?_, ?_⟩
  · intro r hr
    obtain ⟨p, hp, hm, hc⟩ := (hmem r).mp hr
    exact hc
  · rw [findMatches]
    exact sortDesc_pairwise _
  · intro p hp r hm hc
    exact (hmem r).mpr ⟨p, hp, hm, hc⟩
  · intro p hp caps hcaps hθ
    have hexact : tryExactMatch input_text p =
        some ⟨p, 1, entitiesFromCaps p.template caps, "exact"⟩ := by
      rw [tryExactMatch, hcaps]
    have hmp : matchPattern θ input_text p =
        some ⟨p, 1, entitiesFromCaps p.template caps, "exact"⟩ := by
      rw [matchPattern, hexact]
    exact ⟨(hmem _).mpr ⟨p, hp, hmp, hθ⟩,
      fun hn => entitiesFromCaps_of_nodup p.template caps hn,
      matchParts_caps_infix _ _ _ hcaps⟩

/-- C1 witness: the exact-match test case of the test suite. -/
theorem c1_witness :
    (⟨patternMeetingsWith, 1, [("person", "John Smith")], "exact"⟩ : MatchResult) ∈
      findMatches (7/10) "meetings with John Smith" grammarFix := by
  have h := (c1_find_matches (7/10) "meetings with John Smith" grammarFix).2.2.2
    patternMeetingsWith (by decide) ["John Smith".data] (by decide) (by norm_num)
  exact h.1

/-- C7 (evaluation at the claim's inputs): with the possessive template
`"\x7bperson\x7d's meetings"`, the input with the apostrophe matches exactly with
entities person = "Sarah", but the input without the apostrophe does not match
at all: the compiled regex still requires the literal `'s` (the
`regex.replace("\\'s", "'?s?")` relaxation never fires because `re.escape`
leaves apostrophes unescaped on Python ≥ 3.7, the versions the package
supports), and the fuzzy score is 41/70 < 0.7. -/
theorem c7_possessive_bug :
    matchPattern (7/10) "Sarah's meetings" patternPossessive =
      some ⟨patternPossessive, 1, [("person", "Sarah")], "exact"⟩ ∧
    matchPattern (7/10) "Sarahs meetings" patternPossessive = none ∧
    calculateTokenSimilarity (tokenize "Sarahs meetings")
      (tokenizeTemplate patternPossessive.template) = 41/70 := by
  refine ⟨by decide, by decide, by decide⟩

/-! ## SPARQL builder (`kb_query/core/builder.py`) -/

/-- The `ValidationError`/`SPARQLError` raised by the builder, reduced to its
message (the Python exception's `sparql_query` slot is always left `None` by
`build_query`). -/
structure SPARQLError where
  msg : String
deriving DecidableEq

/-- `SPARQLBuilder._escape_sparql_string`: escape backslash first, then
double-quote, newline, carriage return and tab. -/
def escapeSparql (value : LC) : LC :=
  replaceSub ['\t'] ['\\', 't']
    (replaceSub ['\r'] ['\\', 'r']
      (replaceSub ['\n'] ['\\', 'n']
        (replaceSub ['"'] ['\\', '"']
          (replaceSub ['\\'] ['\\', '\\'] value))))

/-- `SPARQLBuilder._add_namespaces`: prepend one `PREFIX` line per namespace
when the query does not already mention `PREFIX`. -/
def addNamespaces (namespaces : List (String × String)) (sparql : LC) : LC :=
  if namespaces = [] then sparql
  else if containsSub "PREFIX".data (upperL sparql) then sparql
  else
    (String.intercalate "\n"
      (namespaces.map fun p => "PREFIX " ++ p.1 ++ ": <" ++ p.2 ++ ">")).data
      ++ '\n' :: sparql

/-- Does `\s+WHERE` (case-insensitively) start here?  Used to locate the end
of the lazy group in `re.search(r'SELECT\s+(.*?)\s+WHERE', ...)`. -/
def wsThenWhere (l : LC) : Bool :=
  l.takeWhile isSpaceChar ≠ [] ∧ ciStarts "WHERE".data (l.dropWhile isSpaceChar)

/-- Minimal index at which `\s+WHERE` begins (the lazy group stops there). -/
def lazyIdx : LC → Option Nat
  | [] => none
  | c :: rest =>
    if wsThenWhere (c :: rest) then some 0 else (lazyIdx rest).map (· + 1)

/-- One whitespace-run choice for the `\s+` after `SELECT`: consume `alen`
whitespace characters (non-zero), then take the shortest group followed by
`\s+WHERE`. -/
def groupCandidate (after : LC) (alen : Nat) : Option LC :=
  if alen = 0 then none
  else if (after.take alen).all isSpaceChar then
    match lazyIdx (after.drop alen) with
    | some k => some ((after.drop alen).take k)
    | none => none
  else none

/-- The group of `SELECT\s+(.*?)\s+WHERE` at one `SELECT` occurrence: the
greedy `\s+` backtracks from the maximal whitespace run down to one
character; for each choice the lazy group is shortest. -/
def bestGroup (after : LC) : Option LC :=
  let m := (after.takeWhile isSpaceChar).length
  (List.range m).findSome? fun d => groupCandidate after (m - d)

/-- Leftmost match of `SELECT\s+(.*?)\s+WHERE` (case-insensitive, DOTALL):
scan for a `SELECT` occurrence at which the rest of the pattern completes. -/
def findSelectGroup : LC → Option LC
  | [] => none
  | c :: rest =>
    if ciStarts "SELECT".data (c :: rest) then
      match bestGroup ((c :: rest).drop 6) with
      | some g => some g
      | none => findSelectGroup rest
    else findSelectGroup rest

/-- Fuel-driven scan of `re.findall(r'\?(\w+)', s)` (each step consumes at
least one character, so `l.length + 1` fuel always suffices). -/
def findVarToksF : Nat → LC → List LC
  | 0, _ => []
  | fuel + 1, l =>
    match l with
    | [] => []
    | c :: rest =>
      if c = '?' then
        match rest.takeWhile isWordChar with
        | [] => findVarToksF fuel rest
        | w => w :: findVarToksF fuel (rest.dropWhile isWordChar)
      else findVarToksF fuel rest

/-- All `?var` tokens of a query in scan order. -/
def findVarToks (l : LC) : List LC := findVarToksF (l.length + 1) l

/-- `SPARQLBuilder._extract_variables`: variables of the `SELECT` clause, or
of the whole query for `SELECT *`; first-seen order, deduplicated. -/
def extractVariables (sparql : LC) : List String :=
  match findSelectGroup sparql with
  | none => []
  | some g =>
    if '*' ∈ g then (dedupFirstSeen (findVarToks sparql)).map List.asString
    else (dedupFirstSeen (findVarToks g)).map List.asString

/-- `SPARQLBuilder.validate_sparql`: one of the four query forms, `WHERE`
whenever `SELECT` appears, balanced braces, balanced parentheses. -/
def validateSparql (sparql : LC) : Bool :=
  let u := upperL sparql
  (containsSub "SELECT".data u || containsSub "CONSTRUCT".data u ||
    containsSub "ASK".data u || containsSub "DESCRIBE".data u) &&
  (!(containsSub "SELECT".data u) || containsSub "WHERE".data u) &&
  (countChar '{' sparql = countChar '}' sparql) &&
  (countChar '(' sparql = countChar ')' sparql)

/-- Match length of `\?\w+\s+[\w:]+\s+\?\w+` at the head of the text (all
character classes are disjoint, so the greedy runs never backtrack). -/
def tripleMatchLen (l : LC) : Option Nat :=
  match l with
  | '?' :: r1 =>
    let w1 := r1.takeWhile isWordChar
    if w1 = [] then none
    else
      let r2 := r1.dropWhile isWordChar
      let s1 := r2.takeWhile isSpaceChar
      if s1 = [] then none
      else
        let r3 := r2.dropWhile isSpaceChar
        let p := r3.takeWhile (fun c => isWordChar c || c = ':')
        if p = [] then none
        else
          let r4 := r3.dropWhile (fun c => isWordChar c || c = ':')
          let s2 := r4.takeWhile isSpaceChar
          if s2 = [] then none
          else
            match r4.dropWhile isSpaceChar with
            | '?' :: r6 =>
              let w2 := r6.takeWhile isWordChar
              if w2 = [] then none
              else some (1 + w1.length + s1.length + p.length + s2.length + 1 + w2.length)
            | _ => none
  | _ => none

/-- Fuel-driven count of non-overlapping triple-pattern matches
(`len(re.findall(r'\?[\w]+\s+[\w:]+\s+\?[\w]+', s))`). -/
def countTriplesF : Nat → LC → Nat
  | 0, _ => 0
  | fuel + 1, l =>
    match l with
    | [] => 0
    | c :: rest =>
      match tripleMatchLen (c :: rest) with
      | some n => 1 + countTriplesF fuel ((c :: rest).drop n)
      | none => countTriplesF fuel rest

def countTriples (l : LC) : Nat := countTriplesF (l.length + 1) l

/-- `SPARQLBuilder._estimate_complexity`. -/
def estimateComplexity (sparql : LC) : Nat :=
  let tc := countTriples sparql
  let u := upperL sparql
  let c := 1 + (if tc > 3 then 1 else 0) + (if tc > 5 then 1 else 0) +
    (if containsSub "FILTER".data u then 1 else 0) +
    (if containsSub "OPTIONAL".data u then 1 else 0) +
    (if containsSub "COUNT".data u || containsSub "SUM".data u ||
        containsSub "AVG".data u || containsSub "MIN".data u ||
        containsSub "MAX".data u then 1 else 0)
  min c 5

/-- Split a text at its last closing brace: `some (before, after)` with the
original equal to `before ++ '\x7d' :: after` and `after` brace-free. -/
def splitLastBrace (l : LC) : Option (LC × LC) :=
  let r := l.reverse
  match r.dropWhile (fun c => c ≠ '}') with
  | [] => none
  | _ :: b2 => some (b2.reverse, (r.takeWhile (fun c => c ≠ '}')).reverse)

/-- Leftmost match of `WHERE\s*\{(.*)\}` (case-insensitive, DOTALL): locate a
`WHERE`, optional whitespace, `\x7b`, then greedily capture up to the *last*
`\x7d` of the text.  Returns `(before-match, capture, after-match)`. -/
def findWhereBlock : LC → Option (LC × LC × LC)
  | [] => none
  | c :: rest =>
    let step : Option (LC × LC × LC) :=
      if ciStarts "WHERE".data (c :: rest) then
        match ((c :: rest).drop 5).dropWhile isSpaceChar with
        | '{' :: body =>
          match splitLastBrace body with
          | some (content, post) => some ([], content, post)
          | none => none
        | _ => none
      else none
    match step with
    | some t => some t
    | none =>
      match findWhereBlock rest with
      | some (pre, content, post) => some (c :: pre, content, post)
      | none => none

/-- The single-graph wrapper `"\n  GRAPH <g> \x7b\n    " + content + "\n  \x7d\n"`
built by `_add_graph_clauses` (content inserted verbatim). -/
def singleGraphWrap (g : String) (where_content : LC) : LC :=
  "\n  GRAPH <".data ++ g.data ++ "> \x7b\n    ".data ++ where_content ++
    "\n  \x7d\n".data

/-- One union member of the multi-graph form: the content is re-indented by
joining its lines with `"\n    "`. -/
def graphBlock (g : String) (where_content : LC) : LC :=
  "  \x7b\n    GRAPH <".data ++ g.data ++ "> \x7b\n      ".data ++
    (List.intercalate "\n    ".data (splitOnChar '\n' where_content)) ++
    "\n    \x7d\n  \x7d".data

/-- `SPARQLBuilder._add_graph_clauses`. -/
def addGraphClauses (sparql : LC) (named_graphs : List String)
    (default_graph : Option String) : LC :=
  if named_graphs = [] ∧ default_graph = none then sparql
  else
    match findWhereBlock sparql with
    | none => sparql
    | some (pre, raw, post) =>
      let where_content := stripL raw
      let graphs := (match default_graph with | some g => [g] | none => []) ++
        named_graphs
      match graphs with
      | [] => sparql
      | [g] =>
        pre ++ "WHERE \x7b".data ++ singleGraphWrap g where_content ++ '}' :: post
      | _ :: _ :: _ =>
        pre ++ "WHERE \x7b".data ++
          ('\n' :: List.intercalate "\n  UNION\n".data
            (graphs.map fun g => graphBlock g where_content) ++ "\n".data) ++
          '}' :: post

/-- `SPARQLBuilder.build_query`: substitute entities (escaped) into the SPARQL
template, add namespaces and graph clauses, extract variables, validate, and
wrap failures in a `SPARQLError` (the `except` block turns the blank-query
`ValidationError` of `SPARQLQuery.__post_init__` into a `SPARQLError` too). -/
def finishBuild (sparql : LC) : Except SPARQLError SPARQLQuery :=
  if validateSparql sparql then
    if stripL sparql = [] then
      .error ⟨"Failed to build SPARQL query: SPARQL query text cannot be empty"⟩
    else
      .ok ⟨sparql.asString, extractVariables sparql, estimateComplexity sparql, false⟩
  else .error ⟨"Invalid SPARQL generated: " ++ (sparql.take 100).asString ++ "..."⟩

def buildQuery (namespaces : List (String × String)) (match_result : MatchResult)
    (named_graphs : List String) (default_graph : Option String) :
    Except SPARQLError SPARQLQuery :=
  let sparql0 := match_result.entities.foldl
    (fun s e => replaceSub ('{' :: (e.1.data ++ ['}'])) (escapeSparql e.2.data) s)
    match_result.pattern.sparql_template.data
  let sparql1 := addNamespaces namespaces sparql0
  let sparql2 := if named_graphs ≠ [] ∨ default_graph ≠ none then
      addGraphClauses sparql1 named_graphs default_graph
    else sparql1
  finishBuild sparql2

/-- `SPARQLBuilder.optimize_query`: move triple-pattern lines of the WHERE
block before FILTER lines.  (The source's `next(...)` over `other` cannot
fail when a FILTER line was collected; `List.findIdx` returning the length in
the impossible no-`WHERE` case matches that unreachable branch harmlessly.) -/
def optimizeQuery (sparql : String) : String :=
  let lines := splitOnChar '\n' sparql.data
  let cls := lines.foldl
    (fun (st : Bool × List LC × List LC × List LC) line =>
      let ls := stripL line
      if containsSub "WHERE".data ls then
        (true, st.2.1, st.2.2.1, st.2.2.2 ++ [line])
      else if st.1 ∧ "FILTER".data.isPrefixOf ls then
        (st.1, st.2.1 ++ [line], st.2.2.1, st.2.2.2)
      else if st.1 ∧ (['?'].isPrefixOf ls ∨ ['<'].isPrefixOf ls) then
        (st.1, st.2.1, st.2.2.1 ++ [line], st.2.2.2)
      else (st.1, st.2.1, st.2.2.1, st.2.2.2 ++ [line]))
    (false, [], [], [])
  let filters := cls.2.1
  let patterns_ := cls.2.2.1
  let other := cls.2.2.2
  if filters ≠ [] ∧ patterns_ ≠ [] then
    let widx := other.findIdx fun l => containsSub "WHERE".data l
    let result := other.take (widx + 1) ++ patterns_ ++ filters
    let rest := (other.drop (widx + 1)).dropWhile fun l =>
      stripL l = [] ∨ stripL l = ['\x7d']
    (List.intercalate ['\n'] (result ++ rest)).asString
  else sparql

/-- Reversed-input worker for stripping the trailing `\s+LIMIT\s+\d+\s*$`
(case-insensitive `re.sub` with an end anchor): from the end, an optional
whitespace run, a digit run, a whitespace run, `LIMIT` reversed, and the whole
maximal whitespace run before it. -/
def stripLimitRev (r : LC) : LC :=
  let r1 := r.dropWhile isSpaceChar
  let d := r1.takeWhile isDigitChar
  let r2 := r1.dropWhile isDigitChar
  let w2 := r2.takeWhile isSpaceChar
  let r3 := r2.dropWhile isSpaceChar
  if d ≠ [] ∧ w2 ≠ [] ∧ ciStarts "TIMIL".data r3 then
    let r4 := r3.drop 5
    if r4.takeWhile isSpaceChar ≠ [] then r4.dropWhile isSpaceChar else r
  else r

/-- `re.sub(r'\s+LIMIT\s+\d+\s*$', '', s, flags=re.IGNORECASE)`. -/
def stripTrailingLimit (s : LC) : LC := (stripLimitRev s.reverse).reverse

/-- `SPARQLBuilder.add_limit`: strip a trailing LIMIT clause, strip trailing
whitespace, truncate after the last closing brace when other text trails it,
then append the new `LIMIT`. -/
def addLimit (sparql : String) (limit : Nat) : String :=
  let s1 := stripTrailingLimit sparql.data
  let s2 := rstripL s1
  let s3 :=
    if s2.getLast? = some '}' then s2
    else
      match splitLastBrace s2 with
      | some (before, _) => before ++ ['}']
      | none => s2
  s3.asString ++ "\nLIMIT " ++ toString limit

/-! ## Supporting lemmas about the builder -/

theorem containsSub_exists : ∀ (pat l : LC), containsSub pat l = true →
    ∃ i, pat.isPrefixOf (l.drop i) = true := by
  intro pat l
  induction l with
  | nil => intro h; simp [containsSub] at h
  | cons c rest ih =>
    intro h
    rw [containsSub, Bool.or_eq_true] at h
    rcases h with h | h
    · exact ⟨0, by simpa using h⟩
    · obtain ⟨i, hi⟩ := ih h
      exact ⟨i + 1, by simpa using hi⟩

theorem stripL_nil_all_space (l : LC) (h : stripL l = []) :
    ∀ c ∈ l, isSpaceChar c = true := by
  intro c hc
  rw [stripL] at h
  have h1 : (l.dropWhile isSpaceChar).reverse.dropWhile isSpaceChar = [] := by
    simpa using h
  rw [List.dropWhile_eq_nil_iff] at h1
  rw [← List.takeWhile_append_dropWhile (p := isSpaceChar) (l := l),
    List.mem_append] at hc
  rcases hc with hc | hc
  · exact List.mem_takeWhile_imp hc
  · exact h1 c (List.mem_reverse.mpr hc)

theorem toUpper_of_space {c : Char} (h : isSpaceChar c = true) : c.toUpper = c := by
  simp only [isSpaceChar, Bool.or_eq_true, decide_eq_true_eq] at h
  rcases h with ((((h | h) | h) | h) | h) | h <;> subst h <;> decide

theorem containsSub_upper_nonspace (s : LC) (k : Char) (kr : LC)
    (hk : isSpaceChar k = false)
    (hc : containsSub (k :: kr) (upperL s) = true) :
    ∃ c ∈ s, isSpaceChar c = false := by
  obtain ⟨i, hi⟩ := containsSub_exists _ _ hc
  rw [upperL, ← List.map_drop] at hi
  revert hi
  cases hd : s.drop i with
  | nil => intro hi; simp [List.isPrefixOf] at hi
  | cons c rest =>
    intro hi
    rw [List.map_cons, List.isPrefixOf, Bool.and_eq_true] at hi
    have hkk : k = c.toUpper := by
      have := hi.1
      simpa using this
    refine ⟨c, ?_, ?_⟩
    · have : c ∈ s.drop i := by rw [hd]; exact List.mem_cons_self c rest
      exact (List.drop_subset i s) this
    · by_contra hcon
      rw [Bool.not_eq_false] at hcon
      rw [toUpper_of_space hcon] at hkk
      rw [hkk] at hk
      rw [hk] at hcon
      exact absurd hcon (by simp)

theorem validateSparql_parts (s : LC) (h : validateSparql s = true) :
    (containsSub "SELECT".data (upperL s) = true ∨
      containsSub "CONSTRUCT".data (upperL s) = true ∨
      containsSub "ASK".data (upperL s) = true ∨
      containsSub "DESCRIBE".data (upperL s) = true) ∧
    (containsSub "SELECT".data (upperL s) = true →
      containsSub "WHERE".data (upperL s) = true) ∧
    countChar '{' s = countChar '}' s ∧ countChar '(' s = countChar ')' s := by
  rw [validateSparql] at h
  simp only [Bool.and_eq_true, Bool.or_eq_true, decide_eq_true_eq] at h
  obtain ⟨⟨⟨hforms, hsw⟩, hbr⟩, hpar⟩ := h
  refine ⟨?_, ?_, hbr, hpar⟩
  · rcases hforms with ((h1 | h1) | h1) | h1
    · exact Or.inl h1
    · exact Or.inr (Or.inl h1)
    · exact Or.inr (Or.inr (Or.inl h1))
    · exact Or.inr (Or.inr (Or.inr h1))
  · intro hsel
    rcases hsw with h2 | h2
    · rw [Bool.not_eq_true'] at h2
      rw [h2] at hsel
      exact absurd hsel (by simp)
    · exact h2

theorem validateSparql_nonblank (s : LC) (h : validateSparql s = true) :
    stripL s ≠ [] := by
  intro hnil
  have hall := stripL_nil_all_space s hnil
  have hforms := (validateSparql_parts s h).1
  have hxx : ∃ c ∈ s, isSpaceChar c = false := by
    rcases hforms with hc | hc | hc | hc
    · exact containsSub_upper_nonspace s 'S' "ELECT".data (by decide) hc
    · exact containsSub_upper_nonspace s 'C' "ONSTRUCT".data (by decide) hc
    · exact containsSub_upper_nonspace s 'A' "SK".data (by decide) hc
    · exact containsSub_upper_nonspace s 'D' "ESCRIBE".data (by decide) hc
  obtain ⟨c, hcm, hcf⟩ := hxx
  rw [hall c hcm] at hcf
  exact absurd hcf (by simp)

theorem finishBuild_ok (s : LC) (q : SPARQLQuery) (h : finishBuild s = .ok q) :
    q.query_text.data = s ∧ validateSparql s = true := by
  rw [finishBuild] at h
  split_ifs at h with h1 h2 <;> cases h
  exact ⟨rfl, h1⟩

theorem finishBuild_error (s : LC) (e : SPARQLError) (h : finishBuild s = .error e) :
    validateSparql s = false ∧
    e.msg = "Invalid SPARQL generated: " ++ (s.take 100).asString ++ "..." := by
  rw [finishBuild] at h
  split_ifs at h with h1 h2 <;> cases h
  all_goals first
  | exact absurd h2 (validateSparql_nonblank s h1)
  | exact ⟨by simpa using h1, rfl⟩

/-- C2: `build_query` either returns a query whose text passes the structural
validator — one of SELECT/CONSTRUCT/ASK/DESCRIBE present, WHERE whenever
SELECT is present, balanced braces and balanced parentheses — or raises a
`SPARQLError` carrying (a 100-character prefix of) the offending query text;
a structurally invalid query is never returned as a success. -/
theorem c2_build_query_validation (namespaces : List (String × String))
    (mr : MatchResult) (named_graphs : List String) (default_graph : Option String) :
    (∀ q, buildQuery namespaces mr named_graphs default_graph = .ok q →
      validateSparql q.query_text.data = true ∧
      countChar '{' q.query_text.data = countChar '}' q.query_text.data ∧
      countChar '(' q.query_text.data = countChar ')' q.query_text.data ∧
      (containsSub "SELECT".data (upperL q.query_text.data) = true →
        containsSub "WHERE".data (upperL q.query_text.data) = true) ∧
      (containsSub "SELECT".data (upperL q.query_text.data) = true ∨
        containsSub "CONSTRUCT".data (upperL q.query_text.data) = true ∨
        containsSub "ASK".data (upperL q.query_text.data) = true ∨
        containsSub "DESCRIBE".data (upperL q.query_text.data) = true)) ∧
    (∀ e, buildQuery namespaces mr named_graphs default_graph = .error e →
      ∃ s : LC, validateSparql s = false ∧
        e.msg = "Invalid SPARQL generated: " ++ (s.take 100).asString ++ "...") := by
  constructor
  · intro q hq
    simp only [buildQuery] at hq
    obtain ⟨hqt, hval⟩ := finishBuild_ok _ q hq
    rw [hqt]
    have hp := validateSparql_parts _ hval
    exact ⟨hval, hp.2.2.1, hp.2.2.2, hp.2.1, hp.1⟩
  · intro e he
    simp only [buildQuery] at he
    obtain ⟨hval, hmsg⟩ := finishBuild_error _ e he
    exact ⟨_, hval, hmsg⟩

/-- C2 witness: building from the test-suite pattern with entity person = John
succeeds, and the resulting text passes the validator. -/
theorem c2_witness :
    validateSparql
      ("PREFIX kb: <http://example.org/kb#>\nSELECT ?meeting WHERE \x7b ?meeting kb:hasAttendee ?person \x7d").data = true ∧
    countChar '{'
      ("PREFIX kb: <http://example.org/kb#>\nSELECT ?meeting WHERE \x7b ?meeting kb:hasAttendee ?person \x7d").data =
    countChar '}'
      ("PREFIX kb: <http://example.org/kb#>\nSELECT ?meeting WHERE \x7b ?meeting kb:hasAttendee ?person \x7d").data := by
  have h := (c2_build_query_validation [("kb", "http://example.org/kb#")]
      ⟨patternMeetingsWith, 1, [("person", "John")], "exact"⟩ [] none).1
    ⟨"PREFIX kb: <http://example.org/kb#>\nSELECT ?meeting WHERE \x7b ?meeting kb:hasAttendee ?person \x7d",
      ["meeting"], 1, false⟩ (by rfl)
  exact ⟨h.1, h.2.1⟩

theorem isPrefixOf_self_append : ∀ (c t : LC), c.isPrefixOf (c ++ t) = true := by
  intro c
  induction c with
  | nil => intro t; simp [List.isPrefixOf]
  | cons a cr ih => intro t; simp [List.isPrefixOf, ih]

theorem containsSub_of_parts : ∀ (u c v : LC), c ≠ [] →
    containsSub c (u ++ (c ++ v)) = true := by
  intro u
  induction u with
  | nil =>
    intro c v hc
    cases c with
    | nil => exact absurd rfl hc
    | cons d cr =>
      rw [List.nil_append, List.cons_append, containsSub, Bool.or_eq_true]
      exact Or.inl (by simpa using isPrefixOf_self_append (d :: cr) v)
  | cons a u' ih =>
    intro c v hc
    rw [List.cons_append, containsSub, Bool.or_eq_true]
    exact Or.inr (ih c v hc)

theorem splitOnChar_no_sep (sep : Char) : ∀ (l : LC), sep ∉ l →
    splitOnChar sep l = [l] := by
  intro l
  induction l with
  | nil => intro _; rfl
  | cons a rest ih =>
    intro h
    rw [splitOnChar]
    rw [if_neg (by intro hcon; exact h (hcon ▸ List.mem_cons_self a rest))]
    rw [ih (fun hm => h (List.mem_cons_of_mem a hm))]

/-- C8 counterexample: a WHERE body spanning two lines.  With two named
graphs, the generated query does not contain the original (stripped) triple
body verbatim anywhere — each GRAPH block re-indents it — contradicting the
claim that each block reproduces the body verbatim. -/
theorem c8_counterexample :
    stripL (" ?a ?b ?c .\n?d ?e ?f . ").data = ("?a ?b ?c .\n?d ?e ?f .").data ∧
    findWhereBlock ("SELECT * WHERE \x7b ?a ?b ?c .\n?d ?e ?f . \x7d").data =
      some ("SELECT * ".data, (" ?a ?b ?c .\n?d ?e ?f . ").data, []) ∧
    containsSub ("?a ?b ?c .\n?d ?e ?f .").data
      (addGraphClauses ("SELECT * WHERE \x7b ?a ?b ?c .\n?d ?e ?f . \x7d").data
        ["http://g1", "http://g2"] none) = false := by
  refine ⟨by decide, by decide, by decide⟩

/-- C8 (amended): with exactly one graph URI (named or default) the WHERE body
is wrapped in a single `GRAPH <uri> \x7b ... \x7d` block containing the stripped
body verbatim; with two graph URIs the WHERE body becomes two `GRAPH` blocks
joined by exactly one `UNION`, each block containing the stripped body with
its lines re-indented — verbatim when the body is single-line. -/
theorem c8_graph_wrapping (sparql pre raw post : LC) (g g1 g2 : String)
    (hwb : findWhereBlock sparql = some (pre, raw, post)) :
    addGraphClauses sparql [g] none =
      pre ++ "WHERE \x7b".data ++ singleGraphWrap g (stripL raw) ++ '}' :: post ∧
    addGraphClauses sparql [] (some g) =
      pre ++ "WHERE \x7b".data ++ singleGraphWrap g (stripL raw) ++ '}' :: post ∧
    addGraphClauses sparql [g1, g2] none =
      pre ++ "WHERE \x7b".data ++
        ('\n' :: (graphBlock g1 (stripL raw) ++ ("\n  UNION\n".data ++
          graphBlock g2 (stripL raw))) ++ "\n".data) ++ '}' :: post ∧
    ('\n' ∉ stripL raw → stripL raw ≠ [] →
      containsSub (stripL raw) (graphBlock g1 (stripL raw)) = true) := by
  refine ⟨?_, ?_, ?_, ?_⟩
  · simp [addGraphClauses, hwb]
  · simp [addGraphClauses, hwb]
  · simp [addGraphClauses, hwb, List.intercalate, List.intersperse]
  · intro hnl hne
    rw [graphBlock, splitOnChar_no_sep '\n' (stripL raw) hnl]
    have hic : List.intercalate "\n    ".data [stripL raw] = stripL raw := by
      simp [List.intercalate]
    rw [hic]
    have := containsSub_of_parts
      ("  \x7b\n    GRAPH <".data ++ g1.data ++ "> \x7b\n      ".data)
      (stripL raw) ("\n    \x7d\n  \x7d".data) hne
    simpa [List.append_assoc] using this

/-- C8 witness: a single-line WHERE body wrapped for one named graph, one
default graph, and a two-graph UNION. -/
theorem c8_witness :
    findWhereBlock ("SELECT * WHERE \x7b ?a ?b ?c \x7d").data =
      some ("SELECT * ".data, " ?a ?b ?c ".data, []) ∧
    addGraphClauses ("SELECT * WHERE \x7b ?a ?b ?c \x7d").data ["http://g"] none =
      "SELECT * ".data ++ "WHERE \x7b".data ++
        singleGraphWrap "http://g" (stripL (" ?a ?b ?c ").data) ++ '}' :: [] ∧
    addGraphClauses ("SELECT * WHERE \x7b ?a ?b ?c \x7d").data [] (some "http://g") =
      "SELECT * ".data ++ "WHERE \x7b".data ++
        singleGraphWrap "http://g" (stripL (" ?a ?b ?c ").data) ++ '}' :: [] ∧
    addGraphClauses ("SELECT * WHERE \x7b ?a ?b ?c \x7d").data
        ["http://g1", "http://g2"] none =
      "SELECT * ".data ++ "WHERE \x7b".data ++
        ('\n' :: (graphBlock "http://g1" (stripL (" ?a ?b ?c ").data) ++
          ("\n  UNION\n".data ++
            graphBlock "http://g2" (stripL (" ?a ?b ?c ").data))) ++ "\n".data) ++
        '}' :: [] ∧
    containsSub (stripL (" ?a ?b ?c ").data)
      (graphBlock "http://g1" (stripL (" ?a ?b ?c ").data)) = true := by
  have H := c8_graph_wrapping ("SELECT * WHERE \x7b ?a ?b ?c \x7d").data
    ("SELECT * ".data) (" ?a ?b ?c ".data) [] "http://g" "http://g1" "http://g2"
    (by decide)
  exact ⟨by decide, H.1, H.2.1, H.2.2.1, H.2.2.2 (by decide) (by decide)⟩

/-- C9 (evaluation at the failing input): `optimize_query` on a conventional
four-line query deletes the closing-brace line: the output fails the
builder's own `validate_sparql` (unbalanced braces) although the input passed
it.  The claim that every non-triple, non-FILTER line keeps its position is
wrong on the code. -/
theorem c9_optimize_drops_brace :
    optimizeQuery "SELECT ?x\nWHERE \x7b\n  ?x a ?y .\n  FILTER(?x > 1)\n\x7d" =
      "SELECT ?x\nWHERE \x7b\n  ?x a ?y .\n  FILTER(?x > 1)" ∧
    validateSparql ("SELECT ?x\nWHERE \x7b\n  ?x a ?y .\n  FILTER(?x > 1)\n\x7d").data = true ∧
    validateSparql ("SELECT ?x\nWHERE \x7b\n  ?x a ?y .\n  FILTER(?x > 1)").data = false := by
  refine ⟨by decide, by decide, by decide⟩

/-! ## Supporting lemmas for `add_limit`

Every scanning step of `stripLimitRev`, `rstripL` and `splitLastBrace` treats
a closing brace as a hard stop, so all of them factor through the last `'\x7d'`
of the text. -/

theorem takeWhile_factor (p : Char → Bool) (hp : p '}' = false) :
    ∀ (x z : LC), (x ++ '}' :: z).takeWhile p = x.takeWhile p := by
  intro x z
  induction x with
  | nil => simp [hp]
  | cons a x' ih =>
    simp only [List.cons_append, List.takeWhile_cons]
    cases hpa : p a <;> simp [hpa, ih]

theorem dropWhile_factor (p : Char → Bool) (hp : p '}' = false) :
    ∀ (x z : LC), (x ++ '}' :: z).dropWhile p = x.dropWhile p ++ '}' :: z := by
  intro x z
  induction x with
  | nil => simp [hp]
  | cons a x' ih =>
    simp only [List.cons_append, List.dropWhile_cons]
    cases hpa : p a <;> simp [hpa, ih]

theorem isPrefixOf_factor : ∀ (pat x z : LC), '}' ∉ pat →
    pat.isPrefixOf (x ++ '}' :: z) = pat.isPrefixOf x := by
  intro pat
  induction pat with
  | nil => intro x z _; simp [List.isPrefixOf]
  | cons a pr ih =>
    intro x z hpat
    cases x with
    | nil =>
      have ha : (a == '}') = false := by
        have : a ≠ '}' := fun hcon => hpat (hcon ▸ List.mem_cons_self a pr)
        simpa using this
      simp [List.isPrefixOf, ha]
    | cons b x' =>
      have ih' := ih x' z (fun hm => hpat (List.mem_cons_of_mem a hm))
      simp only [List.cons_append, List.isPrefixOf, List.append_eq]
      rw [ih']

theorem ciStarts_factor (pat : String) (hpat : '}' ∉ (lowerL pat.data)) (x z : LC) :
    ciStarts pat.data (x ++ '}' :: z) = ciStarts pat.data x := by
  simp only [ciStarts, lowerL, List.map_append, List.map_cons]
  have hlb : '}'.toLower = '}' := by decide
  rw [hlb]
  exact isPrefixOf_factor (pat.data.map Char.toLower) (x.map Char.toLower)
    (z.map Char.toLower) (by simpa [lowerL] using hpat)

theorem ciStarts_length {pat l : LC} (h : ciStarts pat l = true) :
    pat.length ≤ l.length := by
  rw [ciStarts] at h
  have := (List.isPrefixOf_iff_prefix.mp h).length_le
  simpa [lowerL] using this

theorem stripLimitRev_factor (x z : LC) :
    stripLimitRev (x ++ '}' :: z) = stripLimitRev x ++ '}' :: z := by
  have hsp : isSpaceChar '}' = false := by decide
  have hdg : isDigitChar '}' = false := by decide
  have htm : '}' ∉ lowerL "TIMIL".data := by decide
  simp only [stripLimitRev]
  rw [dropWhile_factor _ hsp, takeWhile_factor _ hdg, dropWhile_factor _ hdg,
    takeWhile_factor _ hsp, dropWhile_factor _ hsp, ciStarts_factor _ htm]
  by_cases hcond : (x.dropWhile isSpaceChar).takeWhile isDigitChar ≠ [] ∧
      (((x.dropWhile isSpaceChar).dropWhile isDigitChar).takeWhile isSpaceChar ≠ []) ∧
      ciStarts "TIMIL".data
        (((x.dropWhile isSpaceChar).dropWhile isDigitChar).dropWhile isSpaceChar) = true
  · rw [if_pos hcond, if_pos hcond]
    have hlen : 5 ≤
        (((x.dropWhile isSpaceChar).dropWhile isDigitChar).dropWhile isSpaceChar).length := by
      have := ciStarts_length hcond.2.2
      simpa using this
    rw [List.drop_append_of_le_length hlen]
    rw [takeWhile_factor _ hsp, dropWhile_factor _ hsp]
    by_cases hw1 : ((((x.dropWhile isSpaceChar).dropWhile isDigitChar).dropWhile
        isSpaceChar).drop 5).takeWhile isSpaceChar ≠ []
    · rw [if_pos hw1, if_pos hw1]
    · rw [if_neg hw1, if_neg hw1]
  · rw [if_neg hcond, if_neg hcond]

theorem stripLimitRev_suffix (r : LC) : stripLimitRev r <:+ r := by
  simp only [stripLimitRev]
  split_ifs with h1 h2
  · exact (List.dropWhile_suffix _).trans ((List.drop_suffix _ _).trans
      ((List.dropWhile_suffix _).trans ((List.dropWhile_suffix _).trans
        (List.dropWhile_suffix _))))
  · exact List.suffix_refl r
  · exact List.suffix_refl r

theorem takeWhile_of_all (p : Char → Bool) :
    ∀ (u w : LC), (∀ x ∈ u, p x = true) → (u ++ w).takeWhile p = u ++ w.takeWhile p := by
  intro u w
  induction u with
  | nil => intro _; simp
  | cons a u' ih =>
    intro h
    simp only [List.cons_append, List.takeWhile_cons, h a (List.mem_cons_self a u')]
    simp only [if_true]
    rw [ih (fun x hx => h x (List.mem_cons_of_mem a hx))]

theorem dropWhile_of_all (p : Char → Bool) :
    ∀ (u w : LC), (∀ x ∈ u, p x = true) → (u ++ w).dropWhile p = w.dropWhile p := by
  intro u w
  induction u with
  | nil => intro _; simp
  | cons a u' ih =>
    intro h
    simp only [List.cons_append, List.dropWhile_cons, h a (List.mem_cons_self a u')]
    simp only [if_true]
    exact ih (fun x hx => h x (List.mem_cons_of_mem a hx))

theorem splitLastBrace_spec (a t : LC) (ht : '}' ∉ t) :
    splitLastBrace (a ++ '}' :: t) = some (a, t) := by
  rw [splitLastBrace]
  have hrev : (a ++ '}' :: t).reverse = t.reverse ++ '}' :: a.reverse := by simp
  have hall : ∀ x ∈ t.reverse, (fun c => decide (c ≠ '}')) x = true := by
    intro x hx
    simp only [decide_eq_true_eq]
    intro hcon
    exact ht (hcon ▸ List.mem_reverse.mp hx)
  rw [hrev, dropWhile_of_all _ _ _ hall, takeWhile_of_all _ _ _ hall]
  simp

/-- C10: when a query contains a closing brace and text other than a trailing
LIMIT clause follows the last one, `add_limit` silently deletes that trailing
text: the result is the query truncated right after its last closing brace,
followed by a newline and the new LIMIT clause. -/
theorem c10_add_limit (s : String) (n : Nat) (a t : LC)
    (hdecomp : s.data = a ++ '}' :: t) (hbrace : '}' ∉ t)
    (htrail : rstripL (stripTrailingLimit t) ≠ []) :
    addLimit s n = (a ++ ['}']).asString ++ "\nLIMIT " ++ toString n := by
  rw [addLimit, stripTrailingLimit, hdecomp]
  have hrev : (a ++ '}' :: t).reverse = t.reverse ++ '}' :: a.reverse := by simp
  rw [hrev, stripLimitRev_factor]
  have h1 : (stripLimitRev t.reverse ++ '}' :: a.reverse).reverse =
      a ++ '}' :: (stripLimitRev t.reverse).reverse := by simp
  rw [h1]
  set t1 := (stripLimitRev t.reverse).reverse with ht1
  have hbrace1 : '}' ∉ t1 := by
    intro hmem
    rw [ht1, List.mem_reverse] at hmem
    exact hbrace (List.mem_reverse.mp
      ((stripLimitRev_suffix t.reverse).sublist.subset hmem))
  have hsp : isSpaceChar '}' = false := by decide
  rw [rstripL]
  have h2 : (a ++ '}' :: t1).reverse = t1.reverse ++ '}' :: a.reverse := by simp
  rw [h2, dropWhile_factor _ hsp]
  have h3 : (t1.reverse.dropWhile isSpaceChar ++ '}' :: a.reverse).reverse =
      a ++ '}' :: (t1.reverse.dropWhile isSpaceChar).reverse := by simp
  rw [h3]
  set t2 := (t1.reverse.dropWhile isSpaceChar).reverse with ht2
  have hbrace2 : '}' ∉ t2 := by
    intro hmem
    rw [ht2, List.mem_reverse] at hmem
    exact hbrace1 (List.mem_reverse.mp
      ((List.dropWhile_suffix _).sublist.subset hmem))
  clear_value t2
  cases t2 with
  | nil =>
    have hlast : (a ++ '}' :: ([] : LC)).getLast? = some '}' := List.getLast?_concat a
    rw [if_pos hlast]
  | cons c cs =>
    have hne : (c :: cs : LC) ≠ [] := by simp
    have hlast : (a ++ '}' :: c :: cs).getLast? ≠ some '}' := by
      rw [List.getLast?_append]
      have htail : ('}' :: c :: cs).getLast? = (c :: cs).getLast? := by
        rw [List.getLast?_cons_cons]
      rw [htail]
      have hgl := List.getLast?_eq_getLast (c :: cs) hne
      rw [hgl, Option.or_some]
      intro hcon
      have hc : (c :: cs).getLast hne = '}' := by simpa using hcon
      have hmem : (c :: cs).getLast hne ∈ c :: cs := List.getLast_mem hne
      rw [hc] at hmem
      exact hbrace2 hmem
    rw [if_neg hlast]
    rw [splitLastBrace_spec a (c :: cs) hbrace2]

/-- C10 witness: trailing `ORDER BY` after the last brace is deleted. -/
theorem c10_witness :
    addLimit "SELECT ?x WHERE \x7b ?x ?p ?z \x7d\nORDER BY ?x" 10 =
      ("SELECT ?x WHERE \x7b ?x ?p ?z ".data ++ ['}']).asString ++ "\nLIMIT " ++
        toString 10 :=
  c10_add_limit "SELECT ?x WHERE \x7b ?x ?p ?z \x7d\nORDER BY ?x" 10
    "SELECT ?x WHERE \x7b ?x ?p ?z ".data "\nORDER BY ?x".data
    (by decide) (by decide) (by decide)

/-! ## Query service (`kb_query/services/query.py`)

`QueryService.process_query` is pure except for wall-clock timing and the
externally-executed results, which the method never populates; the embedding
drops `execution_time` and `results` accordingly.  The service is constructed
with `PatternMatcher(similarity_threshold=0.7)`. -/

structure QueryRequest where
  input_text : String
  debug : Bool := false
  show_sparql : Bool := false
  limit : Option Nat := none
  named_graphs : List String := []
  default_graph : Option String := none
deriving DecidableEq

/-- `QueryRequest.__post_init__`: non-blank input, positive limit. -/
def queryRequestValid (r : QueryRequest) : Prop :=
  stripS r.input_text ≠ "" ∧ ∀ n, r.limit = some n → 0 < n

structure DebugInfo where
  matched_pattern : String
  confidence : ℚ
  match_type : String
  extracted_entities : List (String × String)
  pattern_id : String
  sparql_complexity : Nat
deriving DecidableEq

structure QueryResponse where
  success : Bool
  sparql_query : Option String := none
  error_message : Option String := none
  suggestions : Option (List String) := none
  debug_info : Option DebugInfo := none
deriving DecidableEq

/-- `QueryService.process_query`: match, build, apply the limit, attach debug
info; on no match return the failure response with suggestions; any exception
from the build step becomes a failure response (`except` block). -/
def processQuery (namespaces : List (String × String)) (g : Grammar)
    (request : QueryRequest) : QueryResponse :=
  match findMatches (7/10) request.input_text g with
  | [] =>
    { success := false
      error_message := some ("Could not understand query: " ++ request.input_text)
      suggestions := some (suggestCorrections request.input_text g) }
  | best :: _ =>
    match buildQuery namespaces best request.named_graphs request.default_graph with
    | .error e => { success := false, error_message := some e.msg }
    | .ok q =>
      let query_text := match request.limit with
        | some limit => if limit ≠ 0 then addLimit q.query_text limit else q.query_text
        | none => q.query_text
      { success := true
        sparql_query := if request.show_sparql ∨ request.debug then some query_text
          else none
        debug_info := if request.debug then
            some ⟨best.pattern.template, best.confidence, best.match_type,
              best.entities, best.pattern.id, Int.toNat q.estimated_complexity⟩
          else none }

theorem dedupSeen_spec [DecidableEq α] :
    ∀ (l seen : List α), (dedupSeen l seen).Nodup ∧
      ∀ x ∈ dedupSeen l seen, x ∉ seen := by
  intro l
  induction l with
  | nil => intro seen; exact ⟨List.nodup_nil, by simp [dedupSeen]⟩
  | cons a rest ih =>
    intro seen
    rw [dedupSeen]
    split_ifs with h
    · exact ih seen
    · obtain ⟨hnd, hnotin⟩ := ih (a :: seen)
      refine ⟨List.nodup_cons.mpr ⟨?_, hnd⟩, ?_⟩
      · intro hmem
        exact (hnotin a hmem) (List.mem_cons_self a seen)
      · intro x hx
        rcases List.mem_cons.mp hx with rfl | hx
        · exact h
        · intro hxs
          exact (hnotin x hx) (List.mem_cons_of_mem a hxs)

theorem suggestCorrections_nodup_le_five (input_text : String) (g : Grammar) :
    (suggestCorrections input_text g).Nodup ∧
    (suggestCorrections input_text g).length ≤ 5 := by
  rw [suggestCorrections]
  constructor
  · exact (List.take_sublist 5 _).nodup (dedupSeen_spec _ []).1
  · exact List.length_take_le 5 _

/-- C3: when the matcher finds no pattern at or above the threshold,
`process_query` returns a failure response carrying an error message and the
`suggest_corrections` list — deduplicated in first-seen order, at most five
entries, possibly empty — and, being a total function, lets no exception
escape. -/
theorem c3_no_match_failure (namespaces : List (String × String)) (g : Grammar)
    (request : QueryRequest) (hreq : queryRequestValid request)
    (hnone : findMatches (7/10) request.input_text g = []) :
    processQuery namespaces g request =
      { success := false
        error_message := some ("Could not understand query: " ++ request.input_text)
        suggestions := some (suggestCorrections request.input_text g) } ∧
    (suggestCorrections request.input_text g).Nodup ∧
    (suggestCorrections request.input_text g).length ≤ 5 := by
  refine ⟨?_, (suggestCorrections_nodup_le_five request.input_text g).1,
    (suggestCorrections_nodup_le_five request.input_text g).2⟩
  rw [processQuery, hnone]

/-- C3 witness: an input sharing no token with either test pattern. -/
theorem c3_witness :
    processQuery [] grammarFix ⟨"xyzzy", false, false, none, [], none⟩ =
      { success := false
        error_message := some "Could not understand query: xyzzy"
        suggestions := some [] } := by
  have h := (c3_no_match_failure [] grammarFix ⟨"xyzzy", false, false, none, [], none⟩
    (by constructor
        · decide
        · intro n hn; cases hn)
    (by decide)).1
  rw [h]
  have hs : suggestCorrections "xyzzy" grammarFix = [] := by decide
  rw [show (⟨"xyzzy", false, false, none, [], none⟩ : QueryRequest).input_text = "xyzzy"
    from rfl, hs]
  decide
